import Mathlib

/-!
Verification of the signaling core of the Video-Conferencing repository.

The server model is a shallow embedding of
`backend/src/sockets/signaling.ts`: the in-memory maps (`roomsState`,
`roomUserSockets`, `roomBans`), the socket.io broadcast-group membership,
the MongoDB collections touched by the handlers (`meetingParticipants`,
`rooms`, `scheduledRooms`), and each socket event handler as a pure state
transformer returning the list of emitted messages.  The client model
embeds the relevant pieces of `frontend/src/hooks/useWebRTC.ts`.
-/

namespace VC

/-! ### Association-list helpers (JS `Map` semantics) -/

/-- First value bound to key `k`. -/
def lookupA (k : String) : List (String × α) → Option α
  | [] => none
  | (k', v) :: rest => if k' = k then some v else lookupA k rest

/-- Bind key `k` to `v`, replacing the first existing binding or appending. -/
def setA (k : String) (v : α) : List (String × α) → List (String × α)
  | [] => [(k, v)]
  | (k', v') :: rest => if k' = k then (k, v) :: rest else (k', v') :: setA k v rest

/-- Remove the first binding of key `k` (JS `Map.delete`). -/
def delA (k : String) : List (String × α) → List (String × α)
  | [] => []
  | (k', v') :: rest => if k' = k then rest else (k', v') :: delA k rest

/-- Update the first list element satisfying `f` (MongoDB `updateOne`). -/
def updateFirst (f : α → Bool) (g : α → α) : List α → List α
  | [] => []
  | p :: rest => if f p then g p :: rest else p :: updateFirst f g rest

/-! ### Data model

Mirrors the TypeScript types of `signaling.ts` and the MongoDB documents it
touches.  JS `undefined` is `Option.none`; timestamps are `Nat` milliseconds.
-/

/-- Host-command types (`'mute' | 'stopVideo' | 'muteAll' | 'stopVideoAll' |
'endMeeting' | 'removeUser' | 'banUser'`). -/
inductive HCType where
  | mute | stopVideo | muteAll | stopVideoAll | endMeeting | removeUser | banUser
  deriving DecidableEq, Repr

/-- A `MeetingParticipantDocument` row of the `meetingParticipants` collection. -/
structure ParticipantRec where
  roomId : String
  userId : String
  fullName : String
  username : Option String
  joinedAt : Nat
  isHost : Bool
  muted : Bool
  videoEnabled : Bool
  screenSharing : Bool
  socketId : String
  leftAt : Option Nat
  deriving DecidableEq, Repr

/-- A document of the `rooms` / `scheduledRooms` collections (the fields the
signaling handlers read or write). -/
structure RoomDoc where
  code : String
  hostUsername : Option String
  meetingStartAt : Option Nat
  meetingEndAt : Option Nat
  deriving DecidableEq, Repr

/-- In-memory `RoomState` (`{ participants: Set<string>; startTime?: number }`). -/
structure RoomState where
  participants : List String
  startTime : Option Nat
  deriving DecidableEq, Repr

/-- `socket.data` (`{ roomId?: string; userId?: string }`). -/
structure SockData where
  roomId : Option String
  userId : Option String
  deriving DecidableEq, Repr

/-- Entry of the `participants-list` payload sent to a joining client. -/
structure PListEntry where
  userId : String
  fullName : String
  username : Option String
  isHost : Bool
  muted : Bool
  videoEnabled : Bool
  screenSharing : Bool
  joinedAt : Nat
  deriving DecidableEq, Repr

/-- A message emitted by the server (the `ServerToClientEvents` catalogue). -/
inductive Msg where
  | userJoined (userId fullName : String) (username : Option String) (isHost : Bool)
  | userLeft (userId : String)
  | participantsList (participants : List PListEntry)
  | statusUpdate (userId : String) (muted videoEnabled screenSharing : Option Bool)
  | signal (from_ to_ : String) (payload : Nat)
  | chatMessage (userId fullName message : String) (timestamp : Nat)
      (targetUserId : Option String)
  | systemMessage (message : String) (timestamp : Nat)
  | meetingStart (roomId : String) (startTime : Nat)
  | meetingEnd (roomId : String) (endTime durationMs : Nat)
  | hostCommand (type : HCType) (targetUserId : Option String)
  | reaction (userId fullName emoji : String) (timestamp : Nat)
  deriving DecidableEq, Repr

/-- Addressing of an emission: `io.to(roomId)`, `socket.to(roomId)` (room
members except the sending socket), or a direct send to one socket id. -/
inductive Addr where
  | toRoom (roomId : String)
  | toRoomExcept (roomId sid : String)
  | toSocket (sid : String)
  deriving DecidableEq, Repr

/-- One emission: an address and a message. -/
structure Emission where
  addr : Addr
  msg : Msg
  deriving DecidableEq, Repr

/-- The full server-side state touched by the signaling handlers. -/
structure ServerState where
  rooms : List RoomDoc
  scheduledRooms : List RoomDoc
  meetingParticipants : List ParticipantRec
  roomsState : List (String × RoomState)
  roomUserSockets : List (String × List (String × String))
  roomBans : List (String × List String)
  roomMembers : List (String × List String)
  sockData : List (String × SockData)
  deriving DecidableEq, Repr

/-! ### State accessors and primitive mutations -/

/-- Socket ids currently in the socket.io room `r`. -/
def membersOf (st : ServerState) (r : String) : List String :=
  (lookupA r st.roomMembers).getD []

/-- `socket.join(roomId)` on the broadcast-group table. -/
def addMemberL (ms : List (String × List String)) (r sid : String) :
    List (String × List String) :=
  let l := (lookupA r ms).getD []
  setA r (if sid ∈ l then l else l ++ [sid]) ms

/-- `socket.leave(roomId)` on the broadcast-group table. -/
def removeMemberL (ms : List (String × List String)) (r sid : String) :
    List (String × List String) :=
  setA r (((lookupA r ms).getD []).erase sid) ms

/-- The ban set of room `r` (`roomBans.get(roomId)`, empty when absent). -/
def bansOf (st : ServerState) (r : String) : List String :=
  (lookupA r st.roomBans).getD []

/-- The `userId → socketId` map of room `r`. -/
def userSocketsOf (st : ServerState) (r : String) : List (String × String) :=
  (lookupA r st.roomUserSockets).getD []

/-- JS truthiness of an optional string (`undefined` and `""` are falsy). -/
def truthyStr : Option String → Bool
  | some s => !(s == "")
  | none => false

/-- The active `meetingParticipants` record filter
`{ roomId, userId, leftAt: { $exists: false } }`. -/
def isActiveFor (r u : String) (p : ParticipantRec) : Bool :=
  p.roomId == r && p.userId == u && p.leftAt == none

/-- `room?.hostUsername` flattened to a JS value (`undefined` when the
document is missing or the field is unset). -/
def flatHostUsername (docs : List RoomDoc) (code : String) : Option String :=
  (docs.find? (·.code == code)).bind (·.hostUsername)

/-- `updateOne({ code }, { $set: { meetingStartAt } })`. -/
def setStartAt (code : String) (t : Nat) : List RoomDoc → List RoomDoc :=
  updateFirst (·.code == code) (fun d => { d with meetingStartAt := some t })

/-- `updateOne({ code }, { $set: { meetingEndAt } })`. -/
def setEndAt (code : String) (t : Nat) : List RoomDoc → List RoomDoc :=
  updateFirst (·.code == code) (fun d => { d with meetingEndAt := some t })

/-- Insertion into a `joinedAt`-ordered list (models the Mongo
`.sort({ joinedAt: 1 })` of the participant snapshot query). -/
def insertByJoined (p : ParticipantRec) : List ParticipantRec → List ParticipantRec
  | [] => [p]
  | q :: rest => if p.joinedAt < q.joinedAt then p :: q :: rest
      else q :: insertByJoined p rest

/-- Sort a participant list by join time. -/
def sortByJoined : List ParticipantRec → List ParticipantRec
  | [] => []
  | p :: rest => insertByJoined p (sortByJoined rest)

/-- Projection of a DB record to a `participants-list` entry. -/
def toPListEntry (p : ParticipantRec) : PListEntry :=
  { userId := p.userId, fullName := p.fullName, username := p.username,
    isHost := p.isHost, muted := p.muted, videoEnabled := p.videoEnabled,
    screenSharing := p.screenSharing, joinedAt := p.joinedAt }

/-! ### Server handlers

One pure function per `socket.on(...)` handler of `signaling.ts`, returning
the successor state and the list of emissions in program order.
-/

/-- Body of the `join-room` handler after the ban check. -/
def joinCore (st : ServerState) (sid : String) (now : Nat)
    (roomId userId fullName : String) (username : Option String) :
    ServerState × List Emission :=
  let isHost := (flatHostUsername st.rooms roomId == username)
             || (flatHostUsername st.scheduledRooms roomId == username)
  let existing := st.meetingParticipants.find? (isActiveFor roomId userId)
  let db :=
    match existing with
    | some _ =>
        updateFirst (isActiveFor roomId userId)
          (fun p => { p with socketId := sid, leftAt := none }) st.meetingParticipants
    | none =>
        st.meetingParticipants ++
          [{ roomId := roomId, userId := userId, fullName := fullName,
             username := username, joinedAt := now, isHost := isHost,
             muted := false, videoEnabled := true, screenSharing := false,
             socketId := sid, leftAt := none }]
  let allParticipants :=
    sortByJoined (db.filter fun p => p.roomId == roomId && p.leftAt == none)
  let s0 := (lookupA roomId st.roomsState).getD ⟨[], none⟩
  let ps := if userId ∈ s0.participants then s0.participants
            else s0.participants ++ [userId]
  let newStart := s0.startTime.isNone
  let startT := s0.startTime.getD now
  ({ st with
      meetingParticipants := db,
      roomsState := setA roomId ⟨ps, some startT⟩ st.roomsState,
      roomUserSockets :=
        setA roomId (setA userId sid (userSocketsOf st roomId)) st.roomUserSockets,
      rooms := if newStart then setStartAt roomId now st.rooms else st.rooms,
      scheduledRooms :=
        if newStart then setStartAt roomId now st.scheduledRooms
        else st.scheduledRooms },
   (if newStart then [⟨.toRoom roomId, .meetingStart roomId now⟩] else [])
   ++ [⟨.toSocket sid, .meetingStart roomId startT⟩,
       ⟨.toSocket sid, .participantsList (allParticipants.map toPListEntry)⟩]
   ++ (if existing.isNone then
         [⟨.toRoomExcept roomId sid, .userJoined userId fullName username isHost⟩,
          ⟨.toRoom roomId, .systemMessage (fullName ++ " joined the room") now⟩]
       else []))

/-- The `join-room` handler: `socket.join`, `socket.data` assignment, ban
check (silent rejection with `socket.leave`), then the join body. -/
def joinStep (st : ServerState) (sid : String) (now : Nat)
    (roomId userId fullName : String) (username : Option String) :
    ServerState × List Emission :=
  let st1 : ServerState :=
    { st with roomMembers := addMemberL st.roomMembers roomId sid,
              sockData := setA sid ⟨some roomId, some userId⟩ st.sockData }
  if userId ∈ bansOf st1 roomId then
    ({ st1 with roomMembers := removeMemberL st1.roomMembers roomId sid }, [])
  else
    joinCore st1 sid now roomId userId fullName username

/-- `roomUserSockets` cleanup shared by `leave-room` and `disconnect`:
delete the user's entry and drop the room's map once empty. -/
def usDelete (tbl : List (String × List (String × String))) (roomId userId : String) :
    List (String × List (String × String)) :=
  match lookupA roomId tbl with
  | some us =>
      let us' := delA userId us
      if us'.isEmpty then delA roomId tbl else setA roomId us' tbl
  | none => tbl

/-- Apply `usDelete` to the server state. -/
def applyUserSocketDelete (st : ServerState) (roomId userId : String) : ServerState :=
  { st with roomUserSockets := usDelete st.roomUserSockets roomId userId }

/-- The state/DB body shared verbatim by the `leave-room` and `disconnect`
handlers: mark the record left, update `roomsState`, run empty-room
end-of-meeting detection, clean `roomUserSockets`. -/
def leaveCore (st : ServerState) (now : Nat) (roomId userId : String) :
    ServerState × List Emission :=
  let db := updateFirst (isActiveFor roomId userId)
      (fun p => { p with leftAt := some now }) st.meetingParticipants
  let r :=
    match lookupA roomId st.roomsState with
    | some s =>
        match s.participants.erase userId, s.startTime with
        | [], some t0 =>
            ({ st with
                meetingParticipants := db.map (fun (p : ParticipantRec) =>
                  if p.roomId == roomId && p.leftAt == none
                  then { p with leftAt := some now } else p),
                roomsState := delA roomId st.roomsState,
                rooms := setEndAt roomId now st.rooms,
                scheduledRooms := setEndAt roomId now st.scheduledRooms },
             [Emission.mk (.toRoom roomId) (.meetingEnd roomId now (now - t0))])
        | ps', stime =>
            ({ st with
                meetingParticipants := db,
                roomsState := setA roomId ⟨ps', stime⟩ st.roomsState }, [])
    | none => ({ st with meetingParticipants := db }, [])
  (applyUserSocketDelete r.1 roomId userId, r.2)

/-- The `leave-room` handler. -/
def leaveStep (st : ServerState) (sid : String) (now : Nat) (roomId userId : String) :
    ServerState × List Emission :=
  let st1 := { st with roomMembers := removeMemberL st.roomMembers roomId sid }
  let r := leaveCore st1 now roomId userId
  (r.1, r.2 ++ [⟨.toRoomExcept roomId sid, .userLeft userId⟩,
                ⟨.toRoom roomId, .systemMessage "A participant left the room" now⟩])

/-- The `disconnect` handler: socket.io removes the socket from all rooms,
then the handler replays the leave body when `socket.data` was populated
(no system message is sent). -/
def disconnectStep (st : ServerState) (sid : String) (now : Nat) :
    ServerState × List Emission :=
  let st0 := { st with
      roomMembers := st.roomMembers.map (fun e => (e.1, e.2.erase sid)) }
  match lookupA sid st0.sockData with
  | some d =>
      match d.roomId, d.userId with
      | some roomId, some userId =>
          let r := leaveCore st0 now roomId userId
          (r.1, r.2 ++ [⟨.toRoomExcept roomId sid, .userLeft userId⟩])
      | _, _ => (st0, [])
  | none => (st0, [])

/-- The `signal` handler: rebroadcast to the whole room except the sender. -/
def signalStep (st : ServerState) (sid roomId to_ from_ : String) (payload : Nat) :
    ServerState × List Emission :=
  (st, [⟨.toRoomExcept roomId sid, .signal from_ to_ payload⟩])

/-- The `chat-message` handler. -/
def chatStep (st : ServerState) (sid : String) (now : Nat)
    (roomId userId fullName message : String) (target : Option String) :
    ServerState × List Emission :=
  let payload := Msg.chatMessage userId fullName message now target
  match target with
  | some t =>
      if t == "" then (st, [⟨.toRoom roomId, payload⟩])
      else
        match lookupA t (userSocketsOf st roomId) with
        | some tsid => (st, [⟨.toSocket tsid, payload⟩, ⟨.toSocket sid, payload⟩])
        | none => (st, [⟨.toRoom roomId, payload⟩])
  | none => (st, [⟨.toRoom roomId, payload⟩])

/-- Ban-record insertion of the `host-command` handler
(`if (type === 'banUser' && targetUserId) { ... banned.add(targetUserId) }`). -/
def hcBanInsert (st : ServerState) (roomId : String) (type : HCType)
    (target : Option String) : ServerState :=
  match type, target with
  | .banUser, some t =>
      if t == "" then st
      else { st with roomBans :=
          (let b := bansOf st roomId
           setA roomId (if t ∈ b then b else b ++ [t]) st.roomBans) }
  | _, _ => st

/-- Broadcast-group detachment of the `host-command` handler
(`targetSocket?.leave(roomId)` for `removeUser`/`banUser`). -/
def hcKickTarget (st : ServerState) (roomId : String) (type : HCType)
    (target : Option String) : ServerState :=
  match type, target with
  | .removeUser, some t | .banUser, some t =>
      if t == "" then st
      else
        match lookupA t (userSocketsOf st roomId) with
        | some tsid => { st with roomMembers := removeMemberL st.roomMembers roomId tsid }
        | none => st
  | _, _ => st

/-- The `host-command` handler: record a ban for `banUser`, broadcast the
command to the whole room, detach the target's socket for
`removeUser`/`banUser`.  No check of the issuer appears anywhere. -/
def hostCommandStep (st : ServerState) (roomId : String) (type : HCType)
    (target : Option String) : ServerState × List Emission :=
  (hcKickTarget (hcBanInsert st roomId type target) roomId type target,
   [⟨.toRoom roomId, .hostCommand type target⟩])

/-- The `participant-status-update` handler: `$set` only the supplied flags
on the active record, then broadcast the partial update verbatim. -/
def statusUpdateStep (st : ServerState) (roomId userId : String)
    (muted videoEnabled screenSharing : Option Bool) : ServerState × List Emission :=
  if muted.isSome || videoEnabled.isSome || screenSharing.isSome then
    let db := updateFirst (isActiveFor roomId userId)
      (fun p => { p with
          muted := muted.getD p.muted,
          videoEnabled := videoEnabled.getD p.videoEnabled,
          screenSharing := screenSharing.getD p.screenSharing })
      st.meetingParticipants
    ({ st with meetingParticipants := db },
     [⟨.toRoom roomId, .statusUpdate userId muted videoEnabled screenSharing⟩])
  else (st, [])

/-- The `reaction` handler. -/
def reactionStep (st : ServerState) (now : Nat) (roomId userId fullName emoji : String) :
    ServerState × List Emission :=
  (st, [⟨.toRoom roomId, .reaction userId fullName emoji now⟩])

/-! ### Traces -/

/-- One client-to-server event, with the socket id it arrives on and the
wall-clock value `Date.now()` returns while handling it. -/
inductive Op where
  | joinRoom (sid : String) (now : Nat) (roomId userId fullName : String)
      (username : Option String)
  | leaveRoom (sid : String) (now : Nat) (roomId userId : String)
  | signal (sid roomId to_ from_ : String) (payload : Nat)
  | chatMessage (sid : String) (now : Nat) (roomId userId fullName message : String)
      (target : Option String)
  | hostCommand (roomId : String) (type : HCType) (target : Option String)
  | statusUpdate (roomId userId : String) (muted videoEnabled screenSharing : Option Bool)
  | reaction (now : Nat) (roomId userId fullName emoji : String)
  | disconnect (sid : String) (now : Nat)
  deriving DecidableEq, Repr

/-- Dispatch one event to its handler. -/
def step (st : ServerState) : Op → ServerState × List Emission
  | .joinRoom sid now roomId userId fullName username =>
      joinStep st sid now roomId userId fullName username
  | .leaveRoom sid now roomId userId => leaveStep st sid now roomId userId
  | .signal sid roomId to_ from_ payload => signalStep st sid roomId to_ from_ payload
  | .chatMessage sid now roomId userId fullName message target =>
      chatStep st sid now roomId userId fullName message target
  | .hostCommand roomId type target => hostCommandStep st roomId type target
  | .statusUpdate roomId userId muted videoEnabled screenSharing =>
      statusUpdateStep st roomId userId muted videoEnabled screenSharing
  | .reaction now roomId userId fullName emoji =>
      reactionStep st now roomId userId fullName emoji
  | .disconnect sid now => disconnectStep st sid now

/-- Run a trace of events, concatenating emissions in order. -/
def run (st : ServerState) : List Op → ServerState × List Emission
  | [] => (st, [])
  | op :: ops =>
      let r1 := step st op
      let r2 := run r1.1 ops
      (r2.1, r1.2 ++ r2.2)

/-- Fresh process state: given room documents, all in-memory tables empty. -/
def initState (rooms scheduledRooms : List RoomDoc) : ServerState :=
  ⟨rooms, scheduledRooms, [], [], [], [], [], []⟩

/-- Socket ids a single emission is delivered to, given the broadcast-group
membership at emission time. -/
def deliverTo (st : ServerState) : Addr → List String
  | .toRoom r => membersOf st r
  | .toRoomExcept r s => (membersOf st r).erase s
  | .toSocket s => [s]

/-! ### Client-side model (`useWebRTC.ts`) -/

/-- `sendHostCommand`: emits the command only when a socket exists and
`options?.isHost` is truthy; otherwise nothing is sent. -/
def sendHostCommand (hasSocket isHost : Bool) (roomId : String) (type : HCType)
    (target : Option String) : Option (String × HCType × Option String) :=
  if hasSocket && isHost then some (roomId, type, target) else none

/-- Initiator election in `handleParticipantsList`
(`const shouldBeInitiator = userId < participant.userId`). -/
def shouldBeInitiatorOnList (userId participantId : String) : Bool :=
  userId < participantId

/-- Initiator election in `handleUserJoined`
(`const shouldBeInitiator = userId < remoteId`). -/
def shouldBeInitiatorOnJoin (userId remoteId : String) : Bool :=
  userId < remoteId

/-- The local media/host state of one client that `handleHostCommand`
reads and writes. -/
structure ClientMedia where
  userId : String
  isHost : Bool
  hasStream : Bool
  muted : Bool
  videoEnabled : Bool
  meetingEnded : Bool
  kicked : Bool
  deriving DecidableEq, Repr

/-- `handleHostCommand`: global commands skip hosts, targeted commands skip
non-targets, then audio/video tracks are disabled, the meeting-ended
callback fires, or the client tears down and navigates away. -/
def clientHostCommand (c : ClientMedia) (type : HCType) (target : Option String) :
    ClientMedia :=
  let isTarget := !truthyStr target || (target == some c.userId)
  if (type == .muteAll || type == .stopVideoAll) && c.isHost then c
  else if !isTarget then c
  else
    let c1 := if (type == .mute || type == .muteAll) && c.hasStream
      then { c with muted := true } else c
    let c2 := if (type == .stopVideo || type == .stopVideoAll) && c1.hasStream
      then { c1 with videoEnabled := false } else c1
    let c3 := if type == .endMeeting then { c2 with meetingEnded := true } else c2
    if (type == .removeUser || type == .banUser) && isTarget
      then { c3 with kicked := true } else c3

/-- The MeetingRoom page's client-side host determination
(`CreateInstantMeetingPage.tsx`): an arrival carrying the lobby's
`validated` navigation state is flagged host unconditionally
(`if (validatedFromLobby) { ... setIsHost(true) ... }`) — and `LobbyPage`
navigates every successful join with `state: { validated: true }`;
only an arrival without that state falls back to the room lookup
`room?.hostUsername === user.username`. -/
def meetingRoomIsHost (validatedFromLobby : Bool) (roomHostUsername : Option String)
    (username : Option String) : Bool :=
  if validatedFromLobby then true
  else roomHostUsername == username

/-- SDP description kinds. -/
inductive SDPKind where
  | offer | answer
  deriving DecidableEq, Repr

/-- A negotiation payload: an SDP description or an ICE candidate (contents
opaque, identified by a number). -/
inductive SigPayload where
  | sdp (kind : SDPKind) (id : Nat)
  | candidate (id : Nat)
  deriving DecidableEq, Repr

/-- Client-side per-peer connection record. -/
structure PeerInfo where
  isInitiator : Bool
  closed : Bool
  localDesc : Option SDPKind
  remoteDesc : Option SDPKind
  candidatesApplied : Nat
  deriving DecidableEq, Repr

/-- `have-local-offer` signaling state. -/
def hasLocalOffer (p : PeerInfo) : Bool :=
  p.localDesc == some .offer && p.remoteDesc == none

/-- `have-remote-offer` signaling state. -/
def hasRemoteOffer (p : PeerInfo) : Bool :=
  p.remoteDesc == some .offer && p.localDesc == none

/-- `handleSignal`: drop anything not addressed to the local user, ensure a
responder-side peer record, guard duplicate SDP and glare, answer offers,
apply answers, apply candidates only once a remote description exists. -/
def clientHandleSignal (myId : String) (peers : List (String × PeerInfo))
    (from_ to_ : String) (sig : SigPayload) :
    List (String × PeerInfo) × List (String × SigPayload) :=
  if to_ ≠ myId then (peers, [])
  else
    let p := (lookupA from_ peers).getD
      { isInitiator := false, closed := false, localDesc := none,
        remoteDesc := none, candidatesApplied := 0 }
    let peers1 := setA from_ p peers
    if p.closed then (peers1, [])
    else
      match sig with
      | .sdp kind i =>
          if p.remoteDesc == some kind then (peers1, [])
          else
            match kind with
            | .offer =>
                if hasLocalOffer p then (peers1, [])
                else
                  (setA from_
                    { p with remoteDesc := some .offer, localDesc := some .answer }
                    peers1,
                   [(from_, .sdp .answer i)])
            | .answer =>
                if !(hasLocalOffer p || hasRemoteOffer p) then (peers1, [])
                else (setA from_ { p with remoteDesc := some .answer } peers1, [])
      | .candidate _ =>
          if p.remoteDesc.isSome then
            (setA from_ { p with candidatesApplied := p.candidatesApplied + 1 } peers1, [])
          else (peers1, [])

/-- Entry of the client's `allParticipants` map. -/
structure ParticipantInfo where
  userId : String
  fullName : String
  username : Option String
  isHost : Bool
  muted : Bool
  videoEnabled : Bool
  screenSharing : Bool
  joinedAt : Nat
  deriving DecidableEq, Repr

/-- Entry of the client's `remoteStreams` list (status flags optional). -/
structure RemoteStreamInfo where
  userId : String
  fullName : String
  muted : Option Bool
  videoEnabled : Option Bool
  screenSharing : Option Bool
  deriving DecidableEq, Repr

/-- `handleParticipantStatusUpdate`: apply the supplied flags with `??`
fallback to both the participant map and the stream list. -/
def clientStatusUpdate (allParticipants : List (String × ParticipantInfo))
    (remoteStreams : List RemoteStreamInfo) (remoteId : String)
    (m v sc : Option Bool) :
    List (String × ParticipantInfo) × List RemoteStreamInfo :=
  let aps :=
    match lookupA remoteId allParticipants with
    | some q =>
        setA remoteId
          { q with muted := m.getD q.muted, videoEnabled := v.getD q.videoEnabled,
                   screenSharing := sc.getD q.screenSharing } allParticipants
    | none => allParticipants
  let rss := remoteStreams.map (fun s =>
    if s.userId == remoteId then
      { s with muted := m.or s.muted, videoEnabled := v.or s.videoEnabled,
               screenSharing := sc.or s.screenSharing }
    else s)
  (aps, rss)

/-! ### Event counting (session-start bookkeeping) -/

/-- Is this emission the room-wide `meeting-start` broadcast for room `r`? -/
def isStartBroadcast (r : String) (e : Emission) : Bool :=
  match e with
  | ⟨.toRoom r', .meetingStart r'' _⟩ => r' == r && r'' == r
  | _ => false

/-- Number of room-wide `meeting-start` broadcasts for room `r`. -/
def startCount (r : String) (evs : List Emission) : Nat :=
  (evs.filter (isStartBroadcast r)).length

/-- Active participant count of room `r` in the in-memory state. -/
def activeCount (st : ServerState) (r : String) : Nat :=
  match lookupA r st.roomsState with
  | some s => s.participants.length
  | none => 0

/-- Number of steps of the trace whose in-memory active-participant count
for room `r` transitions from zero to positive. -/
def trans01 (st : ServerState) (r : String) : List Op → Nat
  | [] => 0
  | op :: ops =>
      let st' := (step st op).1
      (if activeCount st r = 0 ∧ 0 < activeCount st' r then 1 else 0)
        + trans01 st' r ops

/-- The invariant of the in-memory room table: every entry has a start time
and a nonempty participant set, and keys are unique. -/
def RoomsOK (rs : List (String × RoomState)) : Prop :=
  (∀ r s, lookupA r rs = some s → s.startTime.isSome = true ∧ s.participants ≠ [])
  ∧ (rs.map Prod.fst).Nodup

/-! ### Concrete trace states used by the witnesses -/

/-- A concrete state in which user B is banned from session `s1`. -/
def bannedTraceState : ServerState :=
  (run (initState [] [])
    [ .joinRoom "sa" 100 "s1" "A" "Alice" none,
      .hostCommand "s1" .banUser (some "B") ]).1

/-- A concrete live session `s1` holding participants A and B. -/
def twoUserRoomState : ServerState :=
  (run (initState [] [])
    [ .joinRoom "sa" 100 "s1" "A" "Alice" none,
      .joinRoom "sb" 110 "s1" "B" "Bob" none ]).1

/-- A concrete live session `s1` holding only participant A (started at
time 100, with a persisted room document). -/
def oneUserRoomState : ServerState :=
  (run (initState [⟨"s1", none, none, none⟩] [])
    [ .joinRoom "sa" 100 "s1" "A" "Alice" none ]).1

/-! ### Supporting lemmas for the claim theorems -/

theorem lookupA_setA_self (k : String) (v : α) (l : List (String × α)) :
    lookupA k (setA k v l) = some v := by
  induction l with
  | nil => simp [setA, lookupA]
  | cons hd tl ih =>
    obtain ⟨k', v'⟩ := hd
    by_cases h : k' = k <;> simp [setA, lookupA, h, ih]

theorem lookupA_setA_ne (k k' : String) (v : α) (l : List (String × α))
    (h : k ≠ k') : lookupA k' (setA k v l) = lookupA k' l := by
  induction l with
  | nil => simp [setA, lookupA, h]
  | cons hd tl ih =>
    obtain ⟨k₀, v₀⟩ := hd
    by_cases h0 : k₀ = k
    · subst h0
      simp [setA, lookupA, h]
    · by_cases h1 : k₀ = k' <;> simp [setA, lookupA, h0, h1, ih, Ne.symm h]

theorem setA_lookupA_eq (k : String) (v : α) (l : List (String × α))
    (h : lookupA k l = some v) : setA k v l = l := by
  induction l with
  | nil => simp [lookupA] at h
  | cons hd tl ih =>
    obtain ⟨k', v'⟩ := hd
    by_cases h0 : k' = k
    · subst h0
      simp [lookupA] at h
      simp [setA, h]
    · simp [lookupA, h0] at h
      simp [setA, h0, ih h]

theorem setA_setA (k : String) (v w : α) (l : List (String × α)) :
    setA k v (setA k w l) = setA k v l := by
  induction l with
  | nil => simp [setA]
  | cons hd tl ih =>
    obtain ⟨k', v'⟩ := hd
    by_cases h0 : k' = k <;> simp [setA, h0, ih]

theorem lookupA_delA_ne (k k' : String) (l : List (String × α))
    (h : k ≠ k') : lookupA k' (delA k l) = lookupA k' l := by
  induction l with
  | nil => simp [delA]
  | cons hd tl ih =>
    obtain ⟨k₀, v₀⟩ := hd
    by_cases h0 : k₀ = k
    · subst h0
      simp [delA, lookupA, h]
    · by_cases h1 : k₀ = k' <;> simp [delA, lookupA, h0, h1, ih, Ne.symm h]

theorem updateFirst_of_forall_not (f : α → Bool) (g : α → α) (l : List α)
    (h : ∀ p ∈ l, f p = false) : updateFirst f g l = l := by
  induction l with
  | nil => rfl
  | cons hd tl ih =>
    have hhd := h hd (by simp)
    simp [updateFirst, hhd]
    exact ih fun p hp => h p (by simp [hp])

theorem find?_updateFirst (f : α → Bool) (g : α → α) (l : List α) (p : α)
    (hp : l.find? f = some p) (hg : f (g p) = true) :
    (updateFirst f g l).find? f = some (g p) := by
  induction l with
  | nil => simp at hp
  | cons hd tl ih =>
    by_cases h : f hd = true
    · rw [List.find?_cons_of_pos _ h] at hp
      injection hp with hp
      subst hp
      simp [updateFirst, h, List.find?_cons_of_pos _ hg]
    · have h' : f hd = false := by
        cases hf : f hd
        · rfl
        · exact absurd hf h
      rw [List.find?_cons_of_neg _ (by simp [h'])] at hp
      simp [updateFirst, h', List.find?_cons_of_neg, ih hp]

theorem lookupA_eq_none_of_not_mem_keys (k : String) (l : List (String × α))
    (h : k ∉ l.map Prod.fst) : lookupA k l = none := by
  induction l with
  | nil => rfl
  | cons hd tl ih =>
    obtain ⟨k', v'⟩ := hd
    simp only [List.map_cons, List.mem_cons] at h
    push_neg at h
    simp [lookupA, Ne.symm h.1, ih h.2]

theorem erase_append_singleton_self (sid : String) (l : List String) (h : sid ∉ l) :
    (l ++ [sid]).erase sid = l := by
  rw [List.erase_append_right _ h]
  simp

/-- Net effect of `socket.join` immediately followed by `socket.leave` for a
socket not already in the room: the membership view is unchanged. -/
theorem membersOf_add_remove (ms : List (String × List String)) (r sid : String)
    (h : sid ∉ (lookupA r ms).getD []) (r' : String) :
    (lookupA r' (removeMemberL (addMemberL ms r sid) r sid)).getD ([] : List String)
      = (lookupA r' ms).getD [] := by
  simp only [removeMemberL, addMemberL, if_neg h, lookupA_setA_self, Option.getD_some]
  rw [erase_append_singleton_self _ _ h, setA_setA]
  by_cases hr : r' = r
  · subst hr
    rw [lookupA_setA_self]
    rfl
  · rw [lookupA_setA_ne _ _ _ _ (fun he => hr he.symm)]

/-- The banned branch of the `join-room` handler in closed form. -/
theorem joinStep_banned (st : ServerState) (sid : String) (now : Nat)
    (roomId userId fullName : String) (username : Option String)
    (hban : userId ∈ bansOf st roomId) :
    joinStep st sid now roomId userId fullName username
      = ({ st with
            roomMembers := removeMemberL (addMemberL st.roomMembers roomId sid) roomId sid,
            sockData := setA sid ⟨some roomId, some userId⟩ st.sockData }, []) := by
  simp only [joinStep]
  rw [if_pos]
  exact hban

theorem roomBans_joinStep (st : ServerState) (sid : String) (now : Nat)
    (roomId userId fullName : String) (username : Option String) :
    (joinStep st sid now roomId userId fullName username).1.roomBans = st.roomBans := by
  simp only [joinStep, joinCore]
  split <;> rfl

theorem roomBans_leaveCore (st : ServerState) (now : Nat) (roomId userId : String) :
    (leaveCore st now roomId userId).1.roomBans = st.roomBans := by
  simp only [leaveCore, applyUserSocketDelete]
  split
  · split <;> rfl
  · rfl

theorem roomBans_hcKickTarget (st : ServerState) (roomId' : String)
    (type : HCType) (target : Option String) :
    (hcKickTarget st roomId' type target).roomBans = st.roomBans := by
  simp only [hcKickTarget]
  split <;> try rfl
  all_goals split <;> try rfl
  all_goals split <;> rfl

theorem bansOf_hcBanInsert_mono (st : ServerState) (roomId' : String)
    (type : HCType) (target : Option String) (r u : String)
    (h : u ∈ bansOf st r) :
    u ∈ bansOf (hcBanInsert st roomId' type target) r := by
  simp only [hcBanInsert]
  split
  · rename_i t
    split
    · exact h
    · by_cases hr : r = roomId'
      · subst hr
        simp only [bansOf, lookupA_setA_self, Option.getD_some]
        split
        · exact h
        · exact List.mem_append_left _ h
      · simpa [bansOf, lookupA_setA_ne _ _ _ _ (fun he => hr he.symm)] using h
  · exact h

theorem roomBans_hostCommandStep_mono (st : ServerState) (roomId' : String)
    (type : HCType) (target : Option String) (r u : String)
    (h : u ∈ bansOf st r) :
    u ∈ bansOf (hostCommandStep st roomId' type target).1 r := by
  have h1 := bansOf_hcBanInsert_mono st roomId' type target r u h
  simpa [hostCommandStep, bansOf, roomBans_hcKickTarget] using h1

/-- No handler ever removes a ban: one step preserves ban membership. -/
theorem bansOf_step_mono (st : ServerState) (op : Op) (r u : String)
    (h : u ∈ bansOf st r) : u ∈ bansOf (step st op).1 r := by
  cases op with
  | joinRoom sid now roomId userId fullName username =>
      have := roomBans_joinStep st sid now roomId userId fullName username
      simpa [step, bansOf, this] using h
  | leaveRoom sid now roomId userId =>
      simpa [step, leaveStep, bansOf, roomBans_leaveCore] using h
  | signal sid roomId to_ from_ payload => simpa [step, signalStep, bansOf] using h
  | chatMessage sid now roomId userId fullName message target =>
      simp only [step, chatStep]
      split
      · split
        · simpa [bansOf] using h
        · split <;> simpa [bansOf] using h
      · simpa [bansOf] using h
  | hostCommand roomId type target =>
      exact roomBans_hostCommandStep_mono st roomId type target r u h
  | statusUpdate roomId userId muted videoEnabled screenSharing =>
      simp only [step, statusUpdateStep]
      split <;> simpa [bansOf] using h
  | reaction now roomId userId fullName emoji =>
      simpa [step, reactionStep, bansOf] using h
  | disconnect sid now =>
      simp only [step, disconnectStep]
      split
      · split
        · simpa [bansOf, roomBans_leaveCore] using h
        · simpa [bansOf] using h
      · simpa [bansOf] using h

/-- Ban membership is preserved along any trace. -/
theorem bansOf_run_mono (r u : String) (ops : List Op) : ∀ st : ServerState,
    u ∈ bansOf st r → u ∈ bansOf (run st ops).1 r := by
  induction ops with
  | nil => intro st h; exact h
  | cons op ops ih =>
      intro st h
      exact ih _ (bansOf_step_mono st op r u h)

theorem delA_of_not_mem_keys (k : String) (l : List (String × α))
    (h : k ∉ l.map Prod.fst) : delA k l = l := by
  induction l with
  | nil => rfl
  | cons hd tl ih =>
    obtain ⟨k', v'⟩ := hd
    simp only [List.map_cons, List.mem_cons] at h
    push_neg at h
    simp [delA, Ne.symm h.1, ih h.2]

theorem not_mem_keys_delA (k : String) (l : List (String × α))
    (h : (l.map Prod.fst).Nodup) : k ∉ (delA k l).map Prod.fst := by
  induction l with
  | nil => simp [delA]
  | cons hd tl ih =>
    obtain ⟨k', v'⟩ := hd
    simp only [List.map_cons, List.nodup_cons] at h
    by_cases hk : k' = k
    · subst hk
      simpa [delA] using h.1
    · simp only [delA, if_neg hk, List.map_cons, List.mem_cons]
      rintro (rfl | hmem)
      · exact hk rfl
      · exact ih h.2 hmem

theorem lookupA_delA_self (k : String) (l : List (String × α))
    (h : (l.map Prod.fst).Nodup) : lookupA k (delA k l) = none :=
  lookupA_eq_none_of_not_mem_keys _ _ (not_mem_keys_delA k l h)

/-- After marking the unique active record, no active record remains. -/
theorem updateFirst_no_match_left (f : α → Bool) (g : α → α) (l : List α)
    (hc : l.countP f ≤ 1) (hg : ∀ a, f (g a) = false) :
    ∀ p ∈ updateFirst f g l, f p = false := by
  induction l with
  | nil => simp [updateFirst]
  | cons hd tl ih =>
    by_cases h : f hd = true
    · have htl : tl.countP f = 0 := by
        have hc2 := hc
        simp only [List.countP_cons, h, if_true] at hc2
        omega
      intro p hp
      simp only [updateFirst, h, if_true, List.mem_cons] at hp
      rcases hp with rfl | hp
      · exact hg hd
      · have := List.countP_eq_zero.mp htl p hp
        simpa using this
    · have h' : f hd = false := by
        cases hf : f hd
        · rfl
        · exact absurd hf h
      have hc' : tl.countP f ≤ 1 := by
        have hc2 := hc
        simp only [List.countP_cons, h'] at hc2
        omega
      intro p hp
      simp only [updateFirst, h', Bool.false_eq_true, if_false, List.mem_cons] at hp
      rcases hp with rfl | hp
      · exact h'
      · exact ih hc' p hp

/-- After the empty-room cleanup marks every active record of the room,
no active record for any user of that room remains. -/
theorem map_mark_no_match_left (roomId userId : String) (now : Nat)
    (l : List ParticipantRec) :
    ∀ p ∈ l.map (fun q : ParticipantRec =>
        if q.roomId == roomId && q.leftAt == none
        then { q with leftAt := some now } else q),
      isActiveFor roomId userId p = false := by
  intro p hp
  simp only [List.mem_map] at hp
  obtain ⟨q, _, rfl⟩ := hp
  by_cases h : (q.roomId == roomId && q.leftAt == none) = true
  · simp [h, isActiveFor]
  · simp only [h, Bool.false_eq_true, if_false]
    simp only [Bool.and_eq_true, beq_iff_eq] at h
    push_neg at h
    by_cases hq : q.roomId = roomId
    · simp [isActiveFor, h hq]
    · simp [isActiveFor, hq]

theorem leaveStep_roomMembers (st : ServerState) (sid : String) (now : Nat)
    (roomId userId : String) :
    (leaveStep st sid now roomId userId).1.roomMembers
      = removeMemberL st.roomMembers roomId sid := by
  simp only [leaveStep, leaveCore, applyUserSocketDelete]
  split
  · split <;> rfl
  · rfl

theorem leaveStep_roomUserSockets (st : ServerState) (sid : String) (now : Nat)
    (roomId userId : String) :
    (leaveStep st sid now roomId userId).1.roomUserSockets
      = usDelete st.roomUserSockets roomId userId := by
  simp only [leaveStep, leaveCore, applyUserSocketDelete]
  split
  · split <;> rfl
  · rfl

/-- After one leave, no active DB record for the pair remains. -/
theorem leaveStep_db_inactive (st : ServerState) (sid : String) (now : Nat)
    (roomId userId : String)
    (hc : st.meetingParticipants.countP (isActiveFor roomId userId) ≤ 1) :
    ∀ p ∈ (leaveStep st sid now roomId userId).1.meetingParticipants,
      isActiveFor roomId userId p = false := by
  have hg : ∀ a : ParticipantRec,
      isActiveFor roomId userId { a with leftAt := some now } = false := by
    intro a
    simp [isActiveFor]
  simp only [leaveStep, leaveCore, applyUserSocketDelete]
  split
  · split
    · exact map_mark_no_match_left roomId userId now _
    · exact updateFirst_no_match_left _ _ _ hc hg
  · exact updateFirst_no_match_left _ _ _ hc hg

/-- After one leave, the room's in-memory entry (if any) no longer contains
the user, and an emptied-but-kept entry can only be an unstarted one. -/
theorem leaveStep_roomsState_clears (st : ServerState) (sid : String) (now : Nat)
    (roomId userId : String)
    (hrsk : (st.roomsState.map Prod.fst).Nodup)
    (hps : ∀ s, lookupA roomId st.roomsState = some s → s.participants.Nodup) :
    ∀ s, lookupA roomId (leaveStep st sid now roomId userId).1.roomsState = some s →
      userId ∉ s.participants ∧ (s.participants = [] → s.startTime = none) := by
  rcases h : lookupA roomId st.roomsState with _ | ⟨ps, stime⟩
  · intro s hs
    simp only [leaveStep, leaveCore, applyUserSocketDelete, h] at hs
    cases hs
  · have hnd : ps.Nodup := hps ⟨ps, stime⟩ h
    rcases he : ps.erase userId with _ | ⟨a, l⟩
    · rcases stime with _ | t0
      · intro s hs
        simp only [leaveStep, leaveCore, applyUserSocketDelete, h, he] at hs
        rw [lookupA_setA_self] at hs
        injection hs with hs
        subst hs
        exact ⟨by simp, fun _ => rfl⟩
      · intro s hs
        simp only [leaveStep, leaveCore, applyUserSocketDelete, h, he] at hs
        rw [lookupA_delA_self _ _ hrsk] at hs
        cases hs
    · intro s hs
      simp only [leaveStep, leaveCore, applyUserSocketDelete, h, he] at hs
      rw [lookupA_setA_self] at hs
      injection hs with hs
      subst hs
      constructor
      · show userId ∉ a :: l
        rw [← he]
        exact hnd.not_mem_erase
      · intro hcon
        simp at hcon

/-- After one leave, the room's socket map entry (if any) no longer has the
user and is nonempty. -/
theorem leaveStep_userSockets_clears (st : ServerState) (sid : String) (now : Nat)
    (roomId userId : String)
    (husk : (st.roomUserSockets.map Prod.fst).Nodup)
    (hush : ∀ us, lookupA roomId st.roomUserSockets = some us → (us.map Prod.fst).Nodup) :
    ∀ us, lookupA roomId (leaveStep st sid now roomId userId).1.roomUserSockets = some us →
      userId ∉ us.map Prod.fst ∧ us ≠ [] := by
  rw [leaveStep_roomUserSockets]
  rcases h : lookupA roomId st.roomUserSockets with _ | us0
  · intro us hs
    simp only [usDelete, h] at hs
    cases hs
  · by_cases he : (delA userId us0).isEmpty = true
    · intro us hs
      simp only [usDelete, h, he, if_true] at hs
      rw [lookupA_delA_self _ _ husk] at hs
      cases hs
    · intro us hs
      simp only [usDelete, h] at hs
      rw [if_neg he, lookupA_setA_self] at hs
      injection hs with hs
      subst hs
      refine ⟨not_mem_keys_delA _ _ (hush us0 h), ?_⟩
      intro hcon
      rw [hcon] at he
      exact he rfl

/-- A leave for a pair with no remaining state anywhere is a state-level
no-op that nevertheless still emits the two notifications. -/
theorem leaveStep_inactive (st : ServerState) (sid : String) (now : Nat)
    (roomId userId : String) (lm : List String)
    (hdb : ∀ p ∈ st.meetingParticipants, isActiveFor roomId userId p = false)
    (hrs : ∀ s, lookupA roomId st.roomsState = some s →
        userId ∉ s.participants ∧ (s.participants = [] → s.startTime = none))
    (hus : ∀ us, lookupA roomId st.roomUserSockets = some us →
        userId ∉ us.map Prod.fst ∧ us ≠ [])
    (hm : lookupA roomId st.roomMembers = some lm) (hsid : sid ∉ lm) :
    leaveStep st sid now roomId userId
      = (st, [⟨.toRoomExcept roomId sid, .userLeft userId⟩,
              ⟨.toRoom roomId, .systemMessage "A participant left the room" now⟩]) := by
  have hmem : removeMemberL st.roomMembers roomId sid = st.roomMembers := by
    unfold removeMemberL
    rw [hm]
    simp only [Option.getD_some]
    rw [List.erase_of_not_mem hsid]
    exact setA_lookupA_eq _ _ _ hm
  have hdbu : updateFirst (isActiveFor roomId userId)
      (fun p : ParticipantRec => { p with leftAt := some now }) st.meetingParticipants
      = st.meetingParticipants := updateFirst_of_forall_not _ _ _ hdb
  have hust : usDelete st.roomUserSockets roomId userId = st.roomUserSockets := by
    unfold usDelete
    rcases h : lookupA roomId st.roomUserSockets with _ | us
    · rfl
    · obtain ⟨h1, h2⟩ := hus us h
      have hd : delA userId us = us := delA_of_not_mem_keys _ _ h1
      simp only [hd]
      rw [if_neg]
      · exact setA_lookupA_eq _ _ _ h
      · simpa using h2
  rcases h : lookupA roomId st.roomsState with _ | ⟨ps, stime⟩
  · simp only [leaveStep, leaveCore, applyUserSocketDelete, h, hmem, hdbu, hust]
    rfl
  · obtain ⟨hni, hemp⟩ := hrs ⟨ps, stime⟩ h
    have herase : ps.erase userId = ps := List.erase_of_not_mem hni
    rcases hshape : ps with _ | ⟨a, l⟩
    · have hst : stime = none := by
        subst hshape
        exact hemp rfl
      subst hshape hst
      simp only [leaveStep, leaveCore, applyUserSocketDelete, h, hmem, hdbu, hust,
        List.erase_nil, setA_lookupA_eq _ _ _ h]
      rfl
    · subst hshape
      simp only [leaveStep, leaveCore, applyUserSocketDelete, h, hmem, hdbu, hust,
        herase, setA_lookupA_eq _ _ _ h]
      rfl

theorem mem_keys_setA (x k : String) (v : α) (l : List (String × α)) :
    x ∈ (setA k v l).map Prod.fst ↔ x = k ∨ x ∈ l.map Prod.fst := by
  induction l with
  | nil => simp [setA]
  | cons hd tl ih =>
    obtain ⟨k', v'⟩ := hd
    by_cases h : k' = k
    · subst h
      simp [setA]
    · simp only [setA, if_neg h, List.map_cons, List.mem_cons, ih]
      tauto

theorem keys_setA_nodup (k : String) (v : α) (l : List (String × α))
    (h : (l.map Prod.fst).Nodup) : ((setA k v l).map Prod.fst).Nodup := by
  induction l with
  | nil => simp [setA]
  | cons hd tl ih =>
    obtain ⟨k', v'⟩ := hd
    simp only [List.map_cons, List.nodup_cons] at h
    by_cases hk : k' = k
    · subst hk
      simpa [setA] using h
    · simp only [setA, if_neg hk, List.map_cons, List.nodup_cons]
      refine ⟨?_, ih h.2⟩
      rw [mem_keys_setA]
      rintro (rfl | hmem)
      · exact hk rfl
      · exact h.1 hmem

theorem delA_sublist (k : String) (l : List (String × α)) :
    List.Sublist (delA k l) l := by
  induction l with
  | nil => simp [delA]
  | cons hd tl ih =>
    obtain ⟨k', v'⟩ := hd
    by_cases h : k' = k
    · simp only [delA, h, if_true]
      exact List.sublist_cons_self _ _
    · simpa [delA, h] using ih.cons₂ (k', v')

theorem keys_delA_nodup (k : String) (l : List (String × α))
    (h : (l.map Prod.fst).Nodup) : ((delA k l).map Prod.fst).Nodup :=
  h.sublist ((delA_sublist k l).map Prod.fst)

theorem startCount_append (r : String) (a b : List Emission) :
    startCount r (a ++ b) = startCount r a + startCount r b := by
  simp [startCount, List.filter_append]

/-- The room-table update performed by `leaveCore`, in closed form. -/
theorem leaveCore_roomsState (st : ServerState) (now : Nat) (rid u : String) :
    (leaveCore st now rid u).1.roomsState
      = (match lookupA rid st.roomsState with
        | none => st.roomsState
        | some s =>
            match s.participants.erase u, s.startTime with
            | [], some _ => delA rid st.roomsState
            | ps', stime => setA rid ⟨ps', stime⟩ st.roomsState) := by
  rcases h : lookupA rid st.roomsState with _ | s
  · simp [leaveCore, applyUserSocketDelete, h]
  · rcases he : s.participants.erase u with _ | ⟨a, l⟩ <;>
      rcases hst : s.startTime with _ | t0 <;>
        simp [leaveCore, applyUserSocketDelete, h, he, hst]

/-- `leaveCore` emits no `meeting-start` broadcast. -/
theorem startCount_leaveCore (st : ServerState) (now : Nat) (rid u r : String) :
    startCount r (leaveCore st now rid u).2 = 0 := by
  rcases h : lookupA rid st.roomsState with _ | s
  · simp [leaveCore, applyUserSocketDelete, h, startCount]
  · rcases he : s.participants.erase u with _ | ⟨a, l⟩ <;>
      rcases hst : s.startTime with _ | t0 <;>
        simp [leaveCore, applyUserSocketDelete, h, he, hst, startCount, isStartBroadcast]

/-- Rooms other than the left one keep their entry under `leaveCore`. -/
theorem lookupA_leaveCore_ne (st : ServerState) (now : Nat) (rid u r : String)
    (hr : r ≠ rid) :
    lookupA r (leaveCore st now rid u).1.roomsState = lookupA r st.roomsState := by
  rw [leaveCore_roomsState]
  rcases h : lookupA rid st.roomsState with _ | s
  · rfl
  · rcases he : s.participants.erase u with _ | ⟨a, l⟩ <;>
      rcases hst : s.startTime with _ | t0 <;>
        simp only [he, hst] <;>
        first
          | rfl
          | exact lookupA_delA_ne rid r _ (fun hh => hr hh.symm)
          | exact lookupA_setA_ne rid r _ _ (fun hh => hr hh.symm)

/-- `leaveCore` cannot raise the active count of a dead room. -/
theorem activeCount_leaveCore (st : ServerState) (now : Nat) (rid u r : String)
    (hInv : RoomsOK st.roomsState) (hz : activeCount st r = 0) :
    activeCount (leaveCore st now rid u).1 r = 0 := by
  by_cases hr : r = rid
  · subst hr
    rcases h : lookupA r st.roomsState with _ | s
    · simp only [activeCount, leaveCore_roomsState, h]
    · exfalso
      rw [activeCount, h] at hz
      exact (hInv.1 r s h).2 (List.length_eq_zero.mp hz)
  · rw [activeCount, lookupA_leaveCore_ne st now rid u r hr]
    rw [activeCount] at hz
    exact hz

/-- `leaveCore` preserves the room-table invariant. -/
theorem roomsOK_leaveCore (st : ServerState) (now : Nat) (rid u : String)
    (hInv : RoomsOK st.roomsState) :
    RoomsOK (leaveCore st now rid u).1.roomsState := by
  have hkeys : (((leaveCore st now rid u).1.roomsState).map Prod.fst).Nodup := by
    rw [leaveCore_roomsState]
    rcases h : lookupA rid st.roomsState with _ | s
    · exact hInv.2
    · rcases he : s.participants.erase u with _ | ⟨a, l⟩ <;>
        rcases hst : s.startTime with _ | t0 <;>
          simp only [he, hst] <;>
          first
            | exact hInv.2
            | exact keys_delA_nodup _ _ hInv.2
            | exact keys_setA_nodup _ _ _ hInv.2
  refine ⟨?_, hkeys⟩
  intro r' s' hl
  by_cases hr : r' = rid
  · subst hr
    rw [leaveCore_roomsState] at hl
    rcases h : lookupA r' st.roomsState with _ | s
    · simp only [h] at hl
      cases hl
    · have hsome : s.startTime.isSome = true := (hInv.1 r' s h).1
      rcases he : s.participants.erase u with _ | ⟨a, l⟩ <;>
        rcases hst : s.startTime with _ | t0
      · simp only [h, he, hst] at hl
        rw [lookupA_setA_self] at hl
        injection hl with hl
        rw [hst] at hsome
        simp at hsome
      · simp only [h, he, hst] at hl
        rw [lookupA_delA_self _ _ hInv.2] at hl
        cases hl
      · rw [hst] at hsome
        simp at hsome
      · simp only [h, he, hst] at hl
        rw [lookupA_setA_self] at hl
        injection hl with hl
        subst hl
        exact ⟨rfl, by simp⟩
  · rw [lookupA_leaveCore_ne st now rid u r' hr] at hl
    exact hInv.1 r' s' hl

/-- A step that leaves the room table unchanged and emits no start
broadcast contributes nothing to either side of the start count. -/
theorem startCount_step_frame (st st' : ServerState) (evs : List Emission) (r : String)
    (hrs : st'.roomsState = st.roomsState) (hevs : startCount r evs = 0)
    (hInv : RoomsOK st.roomsState) :
    startCount r evs
      = (if activeCount st r = 0 ∧ 0 < activeCount st' r then 1 else 0)
    ∧ RoomsOK st'.roomsState := by
  have hac : activeCount st' r = activeCount st r := by
    rw [activeCount, activeCount, hrs]
  refine ⟨?_, by rw [hrs]; exact hInv⟩
  rw [hevs, hac, if_neg]
  rintro ⟨h1, h2⟩
  omega

theorem chatStep_state (st : ServerState) (sid : String) (now : Nat)
    (roomId userId fullName message : String) (target : Option String) :
    (chatStep st sid now roomId userId fullName message target).1 = st := by
  simp only [chatStep]
  split <;> try rfl
  all_goals split <;> try rfl
  all_goals split <;> rfl

theorem startCount_chatStep (st : ServerState) (sid : String) (now : Nat)
    (roomId userId fullName message : String) (target : Option String) (r : String) :
    startCount r (chatStep st sid now roomId userId fullName message target).2 = 0 := by
  simp only [chatStep]
  split <;> try (simp [startCount, isStartBroadcast])
  all_goals split <;> try (simp [startCount, isStartBroadcast])
  all_goals split <;> simp [startCount, isStartBroadcast]

theorem roomsState_hostCommandStep (st : ServerState) (roomId : String)
    (type : HCType) (target : Option String) :
    (hostCommandStep st roomId type target).1.roomsState = st.roomsState := by
  have h1 : ∀ s : ServerState, (hcBanInsert s roomId type target).roomsState
      = s.roomsState := by
    intro s
    simp only [hcBanInsert]
    split <;> try rfl
    split <;> rfl
  have h2 : ∀ s : ServerState, (hcKickTarget s roomId type target).roomsState
      = s.roomsState := by
    intro s
    simp only [hcKickTarget]
    split <;> try rfl
    all_goals split <;> try rfl
    all_goals split <;> rfl
  rw [hostCommandStep]
  rw [h2, h1]

theorem roomsState_statusUpdateStep (st : ServerState) (roomId userId : String)
    (muted videoEnabled screenSharing : Option Bool) :
    (statusUpdateStep st roomId userId muted videoEnabled screenSharing).1.roomsState
      = st.roomsState := by
  simp only [statusUpdateStep]
  split <;> rfl

theorem startCount_statusUpdateStep (st : ServerState) (roomId userId : String)
    (muted videoEnabled screenSharing : Option Bool) (r : String) :
    startCount r (statusUpdateStep st roomId userId muted videoEnabled screenSharing).2
      = 0 := by
  simp only [statusUpdateStep]
  split <;> simp [startCount, isStartBroadcast]

theorem startCount_leaveStep (st : ServerState) (sid : String) (now : Nat)
    (roomId userId : String) (r : String) :
    startCount r (leaveStep st sid now roomId userId).2 = 0 := by
  rw [leaveStep]
  rw [startCount_append, startCount_leaveCore]
  simp [startCount, isStartBroadcast]

/-- The join body fires the start broadcast exactly on a 0→1 transition of
the room's active count, and preserves the room-table invariant. -/
theorem startCount_joinCore (st : ServerState) (sid : String) (now : Nat)
    (roomId userId fullName : String) (username : Option String) (r : String)
    (hInv : RoomsOK st.roomsState) :
    startCount r (joinCore st sid now roomId userId fullName username).2
      = (if activeCount st r = 0
           ∧ 0 < activeCount (joinCore st sid now roomId userId fullName username).1 r
         then 1 else 0)
    ∧ RoomsOK (joinCore st sid now roomId userId fullName username).1.roomsState := by
  rcases h : lookupA roomId st.roomsState with _ | s
  · -- fresh room: the start broadcast fires and the count goes 0 → 1
    refine ⟨?_, ?_⟩
    · by_cases hr : r = roomId
      · subst hr
        have hz : activeCount st r = 0 := by rw [activeCount, h]
        have hone : activeCount
            (joinCore st sid now r userId fullName username).1 r = 1 := by
          simp [joinCore, activeCount, h, lookupA_setA_self]
        rw [hone, if_pos ⟨hz, by omega⟩]
        simp [joinCore, h, startCount, isStartBroadcast, List.filter_append, apply_ite]
      · have hac : activeCount (joinCore st sid now roomId userId fullName username).1 r
            = activeCount st r := by
          simp only [joinCore, activeCount]
          rw [lookupA_setA_ne roomId r _ _ (fun hh => hr hh.symm)]
        rw [hac, if_neg (by rintro ⟨h1, h2⟩; omega)]
        simp [joinCore, h, startCount, isStartBroadcast, List.filter_append, apply_ite,
          Ne.symm hr]
    · simp only [joinCore]
      refine ⟨?_, keys_setA_nodup _ _ _ hInv.2⟩
      intro r' s' hl
      by_cases hr : r' = roomId
      · subst hr
        simp only [h] at hl
        rw [lookupA_setA_self] at hl
        injection hl with hl
        subst hl
        simp
      · rw [lookupA_setA_ne roomId r' _ _ (fun hh => hr hh.symm)] at hl
        exact hInv.1 r' s' hl
  · -- existing live room: no broadcast, count already positive
    have hne := (hInv.1 roomId s h).2
    have hsome := (hInv.1 roomId s h).1
    rcases hst : s.startTime with _ | t0
    · rw [hst] at hsome
      simp at hsome
    · refine ⟨?_, ?_⟩
      · have hevs : startCount r
            (joinCore st sid now roomId userId fullName username).2 = 0 := by
          simp [joinCore, h, hst, startCount, isStartBroadcast, List.filter_append,
            apply_ite]
        rw [hevs]
        by_cases hr : r = roomId
        · subst hr
          have hpos : activeCount st r ≠ 0 := by
            rw [activeCount, h]
            intro hcon
            exact hne (List.length_eq_zero.mp hcon)
          rw [if_neg (by rintro ⟨h1, h2⟩; exact hpos h1)]
        · have hac : activeCount (joinCore st sid now roomId userId fullName username).1 r
              = activeCount st r := by
            simp only [joinCore, activeCount]
            rw [lookupA_setA_ne roomId r _ _ (fun hh => hr hh.symm)]
          rw [hac, if_neg (by rintro ⟨h1, h2⟩; omega)]
      · simp only [joinCore]
        refine ⟨?_, keys_setA_nodup _ _ _ hInv.2⟩
        intro r' s' hl
        by_cases hr : r' = roomId
        · subst hr
          simp only [h, hst] at hl
          rw [lookupA_setA_self] at hl
          injection hl with hl
          subst hl
          refine ⟨rfl, ?_⟩
          split
          · exact hne
          · simp
        · rw [lookupA_setA_ne roomId r' _ _ (fun hh => hr hh.symm)] at hl
          exact hInv.1 r' s' hl

theorem activeCount_leaveStep (st : ServerState) (sid : String) (now : Nat)
    (roomId userId r : String) (hInv : RoomsOK st.roomsState)
    (hz : activeCount st r = 0) :
    activeCount (leaveStep st sid now roomId userId).1 r = 0 :=
  activeCount_leaveCore
    { st with roomMembers := removeMemberL st.roomMembers roomId sid }
    now roomId userId r hInv hz

theorem roomsOK_leaveStep (st : ServerState) (sid : String) (now : Nat)
    (roomId userId : String) (hInv : RoomsOK st.roomsState) :
    RoomsOK (leaveStep st sid now roomId userId).1.roomsState :=
  roomsOK_leaveCore
    { st with roomMembers := removeMemberL st.roomMembers roomId sid }
    now roomId userId hInv

theorem startCount_disconnectStep (st : ServerState) (sid : String) (now : Nat)
    (r : String) :
    startCount r (disconnectStep st sid now).2 = 0 := by
  simp only [disconnectStep]
  split
  · split
    · rw [startCount_append, startCount_leaveCore]
      simp [startCount, isStartBroadcast]
    · simp [startCount]
  · simp [startCount]

theorem activeCount_disconnectStep (st : ServerState) (sid : String) (now : Nat)
    (r : String) (hInv : RoomsOK st.roomsState) (hz : activeCount st r = 0) :
    activeCount (disconnectStep st sid now).1 r = 0 := by
  simp only [disconnectStep]
  split
  · split
    · exact activeCount_leaveCore _ _ _ _ _ hInv hz
    · exact hz
  · exact hz

theorem roomsOK_disconnectStep (st : ServerState) (sid : String) (now : Nat)
    (hInv : RoomsOK st.roomsState) :
    RoomsOK (disconnectStep st sid now).1.roomsState := by
  simp only [disconnectStep]
  split
  · split
    · exact roomsOK_leaveCore _ _ _ _ hInv
    · exact hInv
  · exact hInv

/-- One dispatched event fires the start broadcast exactly on a 0→1
transition of the room's active count, and preserves the invariant. -/
theorem startCount_step (st : ServerState) (op : Op) (r : String)
    (hInv : RoomsOK st.roomsState) :
    startCount r (step st op).2
      = (if activeCount st r = 0 ∧ 0 < activeCount (step st op).1 r then 1 else 0)
    ∧ RoomsOK (step st op).1.roomsState := by
  cases op with
  | joinRoom sid now roomId userId fullName username =>
      simp only [step, joinStep]
      split
      · exact startCount_step_frame st _ [] r rfl rfl hInv
      · exact startCount_joinCore _ sid now roomId userId fullName username r hInv
  | leaveRoom sid now roomId userId =>
      simp only [step]
      refine ⟨?_, roomsOK_leaveStep st sid now roomId userId hInv⟩
      rw [startCount_leaveStep, if_neg]
      rintro ⟨h1, h2⟩
      have h3 := activeCount_leaveStep st sid now roomId userId r hInv h1
      omega
  | signal sid roomId to_ from_ payload =>
      exact startCount_step_frame st _ _ r rfl (by simp [step, signalStep, startCount,
        isStartBroadcast]) hInv
  | chatMessage sid now roomId userId fullName message target =>
      exact startCount_step_frame st _ _ r
        (by rw [show (step st (.chatMessage sid now roomId userId fullName message
          target)).1 = (chatStep st sid now roomId userId fullName message target).1
          from rfl, chatStep_state])
        (startCount_chatStep st sid now roomId userId fullName message target r) hInv
  | hostCommand roomId type target =>
      exact startCount_step_frame st _ _ r
        (roomsState_hostCommandStep st roomId type target)
        (by simp [step, hostCommandStep, startCount, isStartBroadcast]) hInv
  | statusUpdate roomId userId muted videoEnabled screenSharing =>
      exact startCount_step_frame st _ _ r
        (roomsState_statusUpdateStep st roomId userId muted videoEnabled screenSharing)
        (startCount_statusUpdateStep st roomId userId muted videoEnabled screenSharing r)
        hInv
  | reaction now roomId userId fullName emoji =>
      exact startCount_step_frame st _ _ r rfl (by simp [step, reactionStep, startCount,
        isStartBroadcast]) hInv
  | disconnect sid now =>
      simp only [step]
      refine ⟨?_, roomsOK_disconnectStep st sid now hInv⟩
      rw [startCount_disconnectStep, if_neg]
      rintro ⟨h1, h2⟩
      have h3 := activeCount_disconnectStep st sid now r hInv h1
      omega

/-- Along any trace from an invariant state, the number of start broadcasts
for a room equals the number of its 0→1 active-count transitions. -/
theorem startCount_run (r : String) (ops : List Op) :
    ∀ st : ServerState, RoomsOK st.roomsState →
      startCount r (run st ops).2 = trans01 st r ops := by
  induction ops with
  | nil =>
      intro st _
      rfl
  | cons op ops ih =>
      intro st hInv
      obtain ⟨h1, h2⟩ := startCount_step st op r hInv
      simp only [run, trans01]
      rw [startCount_append, h1, ih _ h2]

/-! ### Claim theorems -/

/-- C4: for any two distinct participants `a` and `b`, exactly one of
{`a` initiates to `b`, `b` initiates to `a`} holds, derived
deterministically from the lexicographic order of their identifiers, and
the `participants-list` handler and the `user-joined` handler compute the
same decision, so the initiator outcome is independent of which arrival
notice is processed first. -/
theorem initiator_election_exactly_one (a b : String) (h : a ≠ b) :
    ((shouldBeInitiatorOnList a b = true ∧ shouldBeInitiatorOnList b a = false)
      ∨ (shouldBeInitiatorOnList a b = false ∧ shouldBeInitiatorOnList b a = true))
    ∧ shouldBeInitiatorOnList a b = shouldBeInitiatorOnJoin a b
    ∧ shouldBeInitiatorOnList b a = shouldBeInitiatorOnJoin b a := by
  refine ⟨?_, rfl, rfl⟩
  rcases lt_trichotomy a b with h1 | h1 | h1
  · exact Or.inl ⟨decide_eq_true h1, decide_eq_false (lt_asymm h1)⟩
  · exact absurd h1 h
  · exact Or.inr ⟨decide_eq_false (lt_asymm h1), decide_eq_true h1⟩

/-- Witness for C4 at the concrete pair ("A", "B"). -/
theorem initiator_election_exactly_one_witness :
    ((shouldBeInitiatorOnList "A" "B" = true ∧ shouldBeInitiatorOnList "B" "A" = false)
      ∨ (shouldBeInitiatorOnList "A" "B" = false ∧ shouldBeInitiatorOnList "B" "A" = true))
    ∧ shouldBeInitiatorOnList "A" "B" = shouldBeInitiatorOnJoin "A" "B"
    ∧ shouldBeInitiatorOnList "B" "A" = shouldBeInitiatorOnJoin "B" "A" :=
  initiator_election_exactly_one "A" "B" (by decide)

/-- C2 counterexample: in a room whose sockets are `sa`, `sb`, `sc`
(participants A, B, C), a negotiation message from A addressed to B is
emitted to the whole room except the sender, so C's socket `sc` receives
it as well — the server does not deliver only to `to`'s transport. -/
theorem signal_relay_counterexample :
    let st := (run (initState [] [])
      [ .joinRoom "sa" 100 "s1" "A" "Alice" none,
        .joinRoom "sb" 110 "s1" "B" "Bob" none,
        .joinRoom "sc" 120 "s1" "C" "Cara" none ]).1
    let r := signalStep st "sa" "s1" "B" "A" 7
    r.2 = [⟨.toRoomExcept "s1" "sa", .signal "A" "B" 7⟩]
    ∧ deliverTo r.1 (Addr.toRoomExcept "s1" "sa") = ["sb", "sc"]
    ∧ lookupA "C" (userSocketsOf r.1 "s1") = some "sc"
    ∧ ("C" : String) ≠ "B" := by
  decide

/-- C2 (amended): the relay broadcasts the payload, tagged with `from` and
`to`, to every socket of the room except the sender, without any transport
lookup; the receiving client's `handleSignal` discards any message whose
`to` is not the local user, so only `to` processes it. -/
theorem signal_relay_broadcast_then_client_filter
    (st : ServerState) (sid roomId to_ from_ : String) (payload : Nat)
    (myId : String) (peers : List (String × PeerInfo)) (sig : SigPayload)
    (hne : to_ ≠ myId) :
    signalStep st sid roomId to_ from_ payload
      = (st, [⟨.toRoomExcept roomId sid, .signal from_ to_ payload⟩])
    ∧ clientHandleSignal myId peers from_ to_ sig = (peers, []) := by
  exact ⟨rfl, by simp [clientHandleSignal, hne]⟩

/-- Witness for C2 (amended) at a concrete non-addressee. -/
theorem signal_relay_broadcast_then_client_filter_witness :
    signalStep (initState [] []) "sa" "s1" "B" "A" 7
      = (initState [] [], [⟨.toRoomExcept "s1" "sa", .signal "A" "B" 7⟩])
    ∧ clientHandleSignal "C" [] "A" "B" (.sdp .offer 1) = ([], []) :=
  signal_relay_broadcast_then_client_filter (initState [] []) "sa" "s1" "B" "A" 7
    "C" [] (.sdp .offer 1) (by decide)

/-- C10: a chat message carrying a (truthy) target user id is delivered
only to the target's registered socket plus an echo to the sender; when the
target has no registered socket the very same payload — still carrying the
target marking — is broadcast to the whole room instead. -/
theorem chat_targeted_delivery
    (st : ServerState) (sid : String) (now : Nat)
    (roomId userId fullName message t : String) (ht : t ≠ "") :
    (∀ tsid, lookupA t (userSocketsOf st roomId) = some tsid →
        chatStep st sid now roomId userId fullName message (some t)
          = (st, [⟨.toSocket tsid, .chatMessage userId fullName message now (some t)⟩,
                  ⟨.toSocket sid, .chatMessage userId fullName message now (some t)⟩]))
    ∧ (lookupA t (userSocketsOf st roomId) = none →
        chatStep st sid now roomId userId fullName message (some t)
          = (st, [⟨.toRoom roomId, .chatMessage userId fullName message now (some t)⟩])) := by
  constructor
  · intro tsid hl
    simp [chatStep, ht, hl]
  · intro hl
    simp [chatStep, ht, hl]

/-- Witness for C10: both delivery branches at concrete states. -/
theorem chat_targeted_delivery_witness :
    let st := (run (initState [] [])
      [ .joinRoom "sa" 100 "s1" "A" "Alice" none,
        .joinRoom "sb" 110 "s1" "B" "Bob" none ]).1
    chatStep st "sa" 130 "s1" "A" "Alice" "hi" (some "B")
      = (st, [⟨.toSocket "sb", .chatMessage "A" "Alice" "hi" 130 (some "B")⟩,
              ⟨.toSocket "sa", .chatMessage "A" "Alice" "hi" 130 (some "B")⟩])
    ∧ chatStep st "sa" 130 "s1" "A" "Alice" "hi" (some "Z")
      = (st, [⟨.toRoom "s1", .chatMessage "A" "Alice" "hi" 130 (some "Z")⟩]) := by
  refine ⟨(chat_targeted_delivery _ "sa" 130 "s1" "A" "Alice" "hi" "B"
      (by decide)).1 "sb" (by decide), ?_⟩
  exact (chat_targeted_delivery _ "sa" 130 "s1" "A" "Alice" "hi" "Z"
      (by decide)).2 (by decide)

/-- C5: along every trace from a fresh process, for every session, the
number of `meeting-start` events broadcast to the session equals the number
of 0→1 active-participant-count transitions — never more.  The event fires
exactly at the instant the count leaves zero, and since the in-memory room
record is deleted when the room empties, a rejoined session starts a new
lifetime with a new start broadcast.  (The direct `meeting-start` send to a
late joiner replays the already-recorded start timestamp to that one
socket and is not a session-wide start event.) -/
theorem session_start_events_match_transitions
    (rooms scheduledRooms : List RoomDoc) (ops : List Op) (r : String) :
    startCount r (run (initState rooms scheduledRooms) ops).2
      = trans01 (initState rooms scheduledRooms) r ops :=
  startCount_run r ops _
    ⟨fun r' s hl => by simp [lookupA, initState] at hl, by simp [initState]⟩

/-- C3: a join attempt by a banned (session, participant) pair is checked
against the ban list before any participant state is created and is
rejected silently: no emission at all, no DB record, no in-memory session
state, no persisted timestamp, and the broadcast-group membership is
net-unchanged (the socket joins and immediately leaves); since no handler
ever removes a ban, the same silent rejection recurs on every subsequent
join attempt of that pair along any trace — until process restart, as no
unban path exists. -/
theorem banned_join_rejected_silently_forever
    (st : ServerState) (sid : String) (now : Nat)
    (roomId userId fullName : String) (username : Option String)
    (hban : userId ∈ bansOf st roomId)
    (hmem : sid ∉ membersOf st roomId) :
    (joinStep st sid now roomId userId fullName username).2 = []
    ∧ (joinStep st sid now roomId userId fullName username).1.meetingParticipants
        = st.meetingParticipants
    ∧ (joinStep st sid now roomId userId fullName username).1.roomsState = st.roomsState
    ∧ (joinStep st sid now roomId userId fullName username).1.roomUserSockets
        = st.roomUserSockets
    ∧ (joinStep st sid now roomId userId fullName username).1.roomBans = st.roomBans
    ∧ (joinStep st sid now roomId userId fullName username).1.rooms = st.rooms
    ∧ (joinStep st sid now roomId userId fullName username).1.scheduledRooms
        = st.scheduledRooms
    ∧ (∀ r', membersOf (joinStep st sid now roomId userId fullName username).1 r'
        = membersOf st r')
    ∧ (∀ ops, userId ∈
        bansOf (run (joinStep st sid now roomId userId fullName username).1 ops).1 roomId)
    ∧ (∀ ops sid2 now2 fn2 un2,
        let st2 := (run (joinStep st sid now roomId userId fullName username).1 ops).1
        (joinStep st2 sid2 now2 roomId userId fn2 un2).2 = []
        ∧ (joinStep st2 sid2 now2 roomId userId fn2 un2).1.meetingParticipants
            = st2.meetingParticipants
        ∧ (joinStep st2 sid2 now2 roomId userId fn2 un2).1.roomsState = st2.roomsState
        ∧ (joinStep st2 sid2 now2 roomId userId fn2 un2).1.roomUserSockets
            = st2.roomUserSockets
        ∧ (joinStep st2 sid2 now2 roomId userId fn2 un2).1.roomBans = st2.roomBans
        ∧ (joinStep st2 sid2 now2 roomId userId fn2 un2).1.rooms = st2.rooms
        ∧ (joinStep st2 sid2 now2 roomId userId fn2 un2).1.scheduledRooms
            = st2.scheduledRooms) := by
  have hj := joinStep_banned st sid now roomId userId fullName username hban
  rw [hj]
  refine ⟨rfl, rfl, rfl, rfl, rfl, rfl, rfl, ?_, ?_, ?_⟩
  · intro r'
    exact membersOf_add_remove st.roomMembers roomId sid hmem r'
  · intro ops
    exact bansOf_run_mono roomId userId ops _ hban
  · intro ops sid2 now2 fn2 un2
    dsimp only
    have hban2 : userId ∈
        bansOf (run ({ st with
          roomMembers := removeMemberL (addMemberL st.roomMembers roomId sid) roomId sid,
          sockData := setA sid ⟨some roomId, some userId⟩ st.sockData }) ops).1 roomId :=
      bansOf_run_mono roomId userId ops _ hban
    have hj2 := joinStep_banned _ sid2 now2 roomId userId fn2 un2 hban2
    rw [hj2]
    exact ⟨rfl, rfl, rfl, rfl, rfl, rfl, rfl⟩

/-- Witness for C3 at the concrete banned pair ("s1", "B"). -/
theorem banned_join_rejected_silently_forever_witness :
    ("B" ∈ bansOf bannedTraceState "s1")
    ∧ ("sb" ∉ membersOf bannedTraceState "s1")
    ∧ (joinStep bannedTraceState "sb" 200 "s1" "B" "Bob" none).2 = []
    ∧ (joinStep bannedTraceState "sb" 200 "s1" "B" "Bob" none).1.meetingParticipants
        = bannedTraceState.meetingParticipants
    ∧ (∀ r', membersOf (joinStep bannedTraceState "sb" 200 "s1" "B" "Bob" none).1 r'
        = membersOf bannedTraceState r') := by
  obtain ⟨h1, h2, _, _, _, _, _, h8, _, _⟩ :=
    banned_join_rejected_silently_forever bannedTraceState "sb" 200 "s1" "B" "Bob" none
      (by decide) (by decide)
  exact ⟨by decide, by decide, h1, h2, h8⟩

/-- C1 counterexample: participant B is not flagged host for session `s1`,
yet B's `banUser` command inserts a ban record for A, is broadcast to the
whole membership (`sa` and `sb`), and A's socket is detached — nothing is
rejected. -/
theorem host_command_unauthorized_counterexample :
    let st := (run (initState [⟨"s1", some "alice", none, none⟩] [])
      [ .joinRoom "sa" 100 "s1" "A" "Alice" (some "alice"),
        .joinRoom "sb" 110 "s1" "B" "Bob" (some "bob") ]).1
    let r := hostCommandStep st "s1" .banUser (some "A")
    ((st.meetingParticipants.find? (isActiveFor "s1" "B")).map (·.isHost)) = some false
    ∧ ("A" ∈ bansOf r.1 "s1")
    ∧ r.2 = [⟨.toRoom "s1", .hostCommand .banUser (some "A")⟩]
    ∧ deliverTo st (Addr.toRoom "s1") = ["sa", "sb"]
    ∧ membersOf r.1 "s1" = ["sb"] := by
  decide

/-- C1 (amended): host-command authorization exists only on the client:
`sendHostCommand` emits nothing when the local client is not flagged host,
while the server-side handler broadcasts every command it receives to the
room, with no check of the issuer whatsoever. -/
theorem host_command_client_guard_only
    (hasSocket : Bool) (st : ServerState) (roomId : String) (type : HCType)
    (target : Option String) :
    sendHostCommand hasSocket false roomId type target = none
    ∧ (hostCommandStep st roomId type target).2
        = [⟨.toRoom roomId, .hostCommand type target⟩] := by
  constructor
  · simp [sendHostCommand]
  · rfl

/-- C7: the code at the failing input.  `handleHostCommand` skips
`muteAll`/`stopVideoAll` whenever the local client's `isHost` flag is set —
a proxy for "the issuer" that the lobby flow defeats: every arrival from
the lobby carries `validated: true`, so MeetingRoom flags it host no matter
who created the room.  Hence while the issuing host H is indeed spared, a
non-issuer participant P who joined through the lobby (host-flagged, live
media, unmuted, video on) is spared too: H's `mute-all` leaves P's `muted`
false and H's `stop-video-all` leaves P's `videoEnabled` true, violating
"every other active participant transitions".  Only a client whose flag
came back false from the room-lookup fallback path actually transitions,
showing that the skip is keyed to the host flag, not to issuer identity. -/
theorem muteAll_skipped_for_lobby_joined_participant :
    meetingRoomIsHost true (some "alice") (some "bob") = true
    ∧ clientHostCommand ⟨"H", true, true, false, true, false, false⟩ .muteAll none
      = ⟨"H", true, true, false, true, false, false⟩
    ∧ (clientHostCommand ⟨"P", true, true, false, true, false, false⟩ .muteAll none).muted
      = false
    ∧ (clientHostCommand ⟨"P", true, true, false, true, false, false⟩ .stopVideoAll
        none).videoEnabled = true
    ∧ meetingRoomIsHost false (some "alice") (some "bob") = false
    ∧ (clientHostCommand ⟨"Q", false, true, false, true, false, false⟩ .muteAll none).muted
      = true := by
  decide

/-- C9: a status update supplying any subset of the three flags rewrites
exactly the supplied flags on the stored active record (the others and all
remaining fields are untouched), broadcasts the partial update verbatim,
is applied on the receiving client with the same fallback-to-previous
semantics, and a fully empty update does nothing. -/
theorem status_update_partial_frame
    (st : ServerState) (roomId userId : String) (m v sc : Option Bool)
    (p : ParticipantRec)
    (hp : st.meetingParticipants.find? (isActiveFor roomId userId) = some p)
    (hsupp : (m.isSome || v.isSome || sc.isSome) = true) :
    (statusUpdateStep st roomId userId m v sc).2
      = [⟨.toRoom roomId, .statusUpdate userId m v sc⟩]
    ∧ (statusUpdateStep st roomId userId m v sc).1.meetingParticipants.find?
        (isActiveFor roomId userId)
      = some { p with muted := m.getD p.muted, videoEnabled := v.getD p.videoEnabled,
                      screenSharing := sc.getD p.screenSharing }
    ∧ (∀ q aps rss, lookupA userId aps = some q →
        lookupA userId (clientStatusUpdate aps rss userId m v sc).1
          = some { q with muted := m.getD q.muted, videoEnabled := v.getD q.videoEnabled,
                          screenSharing := sc.getD q.screenSharing })
    ∧ statusUpdateStep st roomId userId none none none = (st, []) := by
  have hact : isActiveFor roomId userId p = true := List.find?_some hp
  refine ⟨?_, ?_, ?_, ?_⟩
  · simp [statusUpdateStep, hsupp]
  · have hg : isActiveFor roomId userId
        ((fun q : ParticipantRec =>
          { q with muted := m.getD q.muted, videoEnabled := v.getD q.videoEnabled,
                   screenSharing := sc.getD q.screenSharing }) p) = true := by
      simpa [isActiveFor] using hact
    have := find?_updateFirst (isActiveFor roomId userId)
      (fun q : ParticipantRec =>
        { q with muted := m.getD q.muted, videoEnabled := v.getD q.videoEnabled,
                 screenSharing := sc.getD q.screenSharing })
      st.meetingParticipants p hp hg
    simpa [statusUpdateStep, hsupp] using this
  · intro q aps rss hq
    simp [clientStatusUpdate, hq, lookupA_setA_self]
  · simp [statusUpdateStep]

/-- Witness for C9: a `{muted := true}`-only update at concrete states
leaves `videoEnabled` and `screenSharing` untouched everywhere. -/
theorem status_update_partial_frame_witness :
    let st := (run (initState [⟨"s1", some "alice", none, none⟩] [])
      [ .joinRoom "sa" 100 "s1" "A" "Alice" (some "bob") ]).1
    let p : ParticipantRec :=
      ⟨"s1", "A", "Alice", some "bob", 100, false, false, true, false, "sa", none⟩
    (statusUpdateStep st "s1" "A" (some true) none none).2
      = [⟨.toRoom "s1", .statusUpdate "A" (some true) none none⟩]
    ∧ (statusUpdateStep st "s1" "A" (some true) none none).1.meetingParticipants.find?
        (isActiveFor "s1" "A")
      = some { p with muted := true, videoEnabled := p.videoEnabled,
                      screenSharing := p.screenSharing }
    ∧ (∀ q aps rss, lookupA "A" aps = some q →
        lookupA "A" (clientStatusUpdate aps rss "A" (some true) none none).1
          = some { q with muted := true, videoEnabled := q.videoEnabled,
                          screenSharing := q.screenSharing })
    ∧ statusUpdateStep st "s1" "A" none none none = (st, []) := by
  exact status_update_partial_frame _ "s1" "A" (some true) none none _
    (by decide) (by decide)

/-- C6 counterexample: with participants A and B in session `s1`, two
consecutive `leave-room` events for A each broadcast a `user-left(A)`
notification delivered to B's socket — two notifications, not exactly one
as the claim requires (no end-event is duplicated, though). -/
theorem leave_twice_counterexample :
    let st := (run (initState [] [])
      [ .joinRoom "sa" 100 "s1" "A" "Alice" none,
        .joinRoom "sb" 110 "s1" "B" "Bob" none ]).1
    let r1 := leaveStep st "sa" 200 "s1" "A"
    let r2 := leaveStep r1.1 "sa" 210 "s1" "A"
    ((r1.2 ++ r2.2).filter (fun e => e.msg == Msg.userLeft "A")).length = 2
    ∧ deliverTo r1.1 (Addr.toRoomExcept "s1" "sa") = ["sb"]
    ∧ deliverTo r2.1 (Addr.toRoomExcept "s1" "sa") = ["sb"]
    ∧ ((r1.2 ++ r2.2).filter (fun e => match e.msg with
        | .meetingEnd _ _ _ => true | _ => false)).length = 0 := by
  decide

/-- C6 (amended): a second consecutive leave for the same (session,
participant) pair is a no-op on the entire server state and produces no
end-event, but the `user-left` notification and the system message are
re-broadcast by every leave call, including the redundant one — the
side-effect set is not emitted exactly once. -/
theorem leave_twice_state_noop_but_renotifies
    (st : ServerState) (sid : String) (now1 now2 : Nat) (roomId userId : String)
    (hc : st.meetingParticipants.countP (isActiveFor roomId userId) ≤ 1)
    (hrsk : (st.roomsState.map Prod.fst).Nodup)
    (hps : ∀ s, lookupA roomId st.roomsState = some s → s.participants.Nodup)
    (husk : (st.roomUserSockets.map Prod.fst).Nodup)
    (hush : ∀ us, lookupA roomId st.roomUserSockets = some us → (us.map Prod.fst).Nodup)
    (hmm : (membersOf st roomId).Nodup) :
    leaveStep (leaveStep st sid now1 roomId userId).1 sid now2 roomId userId
      = ((leaveStep st sid now1 roomId userId).1,
         [⟨.toRoomExcept roomId sid, .userLeft userId⟩,
          ⟨.toRoom roomId, .systemMessage "A participant left the room" now2⟩]) := by
  apply leaveStep_inactive _ _ _ _ _ ((membersOf st roomId).erase sid)
  · exact leaveStep_db_inactive st sid now1 roomId userId hc
  · exact leaveStep_roomsState_clears st sid now1 roomId userId hrsk hps
  · exact leaveStep_userSockets_clears st sid now1 roomId userId husk hush
  · rw [leaveStep_roomMembers]
    exact lookupA_setA_self _ _ _
  · exact hmm.not_mem_erase

/-- Witness for C6 (amended) at the concrete double leave of A. -/
theorem leave_twice_state_noop_but_renotifies_witness :
    leaveStep (leaveStep twoUserRoomState "sa" 200 "s1" "A").1 "sa" 210 "s1" "A"
      = ((leaveStep twoUserRoomState "sa" 200 "s1" "A").1,
         [⟨.toRoomExcept "s1" "sa", .userLeft "A"⟩,
          ⟨.toRoom "s1", .systemMessage "A participant left the room" 210⟩]) :=
  leave_twice_state_noop_but_renotifies twoUserRoomState "sa" 200 210 "s1" "A"
    (by decide) (by decide)
    (fun s hh => by cases Option.some.inj hh; decide)
    (by decide)
    (fun us hh => by cases Option.some.inj hh; decide)
    (by decide)

/-- C8 counterexample: in a live two-participant session, issuing the
`endMeeting` host command leaves the server state completely unchanged and
emits only the `host-command` broadcast — no `meeting-end` event carrying
`endTime`/`durationMs` is emitted and no canonical end timestamp is
persisted, unlike the empty-room detection. -/
theorem end_meeting_counterexample :
    let st := (run (initState [⟨"s1", none, none, none⟩] [])
      [ .joinRoom "sa" 100 "s1" "A" "Alice" none,
        .joinRoom "sb" 110 "s1" "B" "Bob" none ]).1
    let r := hostCommandStep st "s1" .endMeeting none
    r.1 = st
    ∧ r.2 = [⟨.toRoom "s1", .hostCommand .endMeeting none⟩]
    ∧ (r.1.rooms.find? (·.code == "s1")).map (·.meetingEndAt) = some none
    ∧ activeCount r.1 "s1" = 2 := by
  decide

/-- C8 (amended): the `endMeeting` command itself only broadcasts
`host-command(endMeeting)` to the room and performs none of the
end-of-session effects; each receiving client self-terminates its meeting
view, and the end-of-session effects — the `meeting-end` event carrying
`endTime` and `durationMs = endTime − startTime` and the durably recorded
end timestamp — fire through the ordinary empty-room detection when the
last participant's leave is processed. -/
theorem end_meeting_broadcast_then_empty_room_detection
    (st : ServerState) (roomId : String) :
    hostCommandStep st roomId .endMeeting none
      = (st, [⟨.toRoom roomId, .hostCommand .endMeeting none⟩])
    ∧ (∀ c : ClientMedia, (clientHostCommand c .endMeeting none).meetingEnded = true)
    ∧ (∀ (st' : ServerState) (sid : String) (now t0 : Nat) (u : String) (d : RoomDoc),
        lookupA roomId st'.roomsState = some ⟨[u], some t0⟩ →
        st'.rooms.find? (·.code == roomId) = some d →
        (leaveStep st' sid now roomId u).2
          = [⟨.toRoom roomId, .meetingEnd roomId now (now - t0)⟩,
             ⟨.toRoomExcept roomId sid, .userLeft u⟩,
             ⟨.toRoom roomId, .systemMessage "A participant left the room" now⟩]
        ∧ (leaveStep st' sid now roomId u).1.rooms.find? (·.code == roomId)
          = some { d with meetingEndAt := some now }) := by
  refine ⟨rfl, fun c => rfl, ?_⟩
  intro st' sid now t0 u d h1 h2
  have hcode := List.find?_some h2
  have hfind := find?_updateFirst (fun x : RoomDoc => x.code == roomId)
    (fun x : RoomDoc => { x with meetingEndAt := some now }) st'.rooms d h2 hcode
  constructor
  · simp [leaveStep, leaveCore, applyUserSocketDelete, h1]
  · simp only [leaveStep, leaveCore, applyUserSocketDelete, h1]
    simpa [setEndAt] using hfind

/-- Witness for C8 (amended) at a concrete last-leave. -/
theorem end_meeting_broadcast_then_empty_room_detection_witness :
    (leaveStep oneUserRoomState "sa" 250 "s1" "A").2
      = [⟨.toRoom "s1", .meetingEnd "s1" 250 (250 - 100)⟩,
         ⟨.toRoomExcept "s1" "sa", .userLeft "A"⟩,
         ⟨.toRoom "s1", .systemMessage "A participant left the room" 250⟩]
    ∧ (leaveStep oneUserRoomState "sa" 250 "s1" "A").1.rooms.find? (·.code == "s1")
      = some { (⟨"s1", none, some 100, none⟩ : RoomDoc) with meetingEndAt := some 250 } :=
  (end_meeting_broadcast_then_empty_room_detection (initState [] []) "s1").2.2
    oneUserRoomState "sa" 250 100 "A" ⟨"s1", none, some 100, none⟩
    (by decide) (by decide)

end VC
